import Mathlib

/-!
Shallow embedding of the lnagb.js sources `src/algebra/Algebra.js` and
`src/matrices/IdentityMatrix.js`, together with theorems settling the
specification claims about them.

Modelling conventions:
* JavaScript numbers are modelled as rationals (`ℚ`); the inputs in all
  claims are exact small integers, where JS double arithmetic agrees with
  exact arithmetic.
* A JavaScript numeric expression that may be `NaN` (arising here only from
  arithmetic on an out-of-bounds array read, which yields `undefined`) is
  modelled as `Option ℚ`, with `none` standing for `NaN` and array reads
  modelled by `List.get?` (`none` = `undefined`).
* JS arrays are `List`s; in-range element assignment `a[i] = v` is
  `List.set i v` (every assignment performed by the embedded code is
  in-range).
* Callback-based iterators (`forEach`, `forEachRow`, `forEachColumn`) are
  modelled by the list of argument tuples the loop passes to the callback,
  in invocation order; the constant `matrix` (`this`) argument is omitted.
  The source loops use only local variables, so the embedding is a pure
  function of the instance, which is exactly the "restartable, no hidden
  cursor state" reading of the iterators.
-/

/-- JS addition on possibly-NaN numbers: `NaN` propagates. -/
def jsAdd : Option ℚ → Option ℚ → Option ℚ
  | some a, some b => some (a + b)
  | _, _ => none

/-- JS multiplication on possibly-NaN numbers: a `NaN` or `undefined`
operand makes the result `NaN`. -/
def jsMul : Option ℚ → Option ℚ → Option ℚ
  | some a, some b => some (a * b)
  | _, _ => none

/-- Embedding of `linearCombination` from `src/algebra/Algebra.js`:

`return p.reduce( ( result, v, i ) => result + p[ i ] * q[ i ], 0 );`

`reduce` visits each index `i` of `p` once, left to right, threading the
accumulator; the body reads `p[i]` and `q[i]` (the latter is `undefined`
when `q` is shorter than `p`, making the running result `NaN` = `none`).
There is no length check and no thrown error in the source. -/
def linearCombination (p q : List ℚ) : Option ℚ :=
  (List.range p.length).foldl
    (fun result i => jsAdd result (jsMul (p.get? i) (q.get? i))) (some 0)

/-- The `size` record `{ rows, columns }` of a matrix instance. -/
structure MatrixSize where
  rows : ℕ
  columns : ℕ
  deriving Repr, DecidableEq

/-- State of an `IdentityMatrix` instance: exactly the instance properties
assigned in the constructor of `src/matrices/IdentityMatrix.js`. -/
structure IdentityMatrix where
  size : MatrixSize
  numberOfEntries : ℕ
  elements : List ℚ
  rank : ℕ
  rows : List (List ℚ)
  columns : List (List ℚ)
  deriving Repr, DecidableEq

/-- Embedding of the constructor's diagonal-filling loop

`for ( let index = 0, _size = size + 1, _n = this.numberOfEntries;
      index < _n; index += _size ) this.elements[ index ] = 1;`

as a fuel-indexed recursion (the fuel, `numberOfEntries` at the call site,
bounds the iteration count since the step is positive). -/
def diagLoop : ℕ → List ℚ → ℕ → ℕ → ℕ → List ℚ
  | 0, els, _, _, _ => els
  | fuel + 1, els, index, stop, step =>
      if index < stop then diagLoop fuel (els.set index 1) (index + step) stop step
      else els

/-- The row built inside the constructor's row loop (and in `row(r)`):
`let row = new Array( size ).fill( 0 ); row[ i ] = 1;`. -/
def basisRow (size i : ℕ) : List ℚ :=
  (List.replicate size (0 : ℚ)).set i 1

/-- Embedding of `new IdentityMatrix( size )`: the constructor of
`src/matrices/IdentityMatrix.js`. `elements` is a `size * size` array of
zeros with ones written at indices `0, size + 1, 2 * (size + 1), ...`;
`rank` is set to `size`; `rows` collects the basis rows in order; and
`columns` is `this.rows.slice()`, a copy with the same contents. -/
def IdentityMatrix.construct (size : ℕ) : IdentityMatrix :=
  { size := { rows := size, columns := size }
    numberOfEntries := size * size
    elements := diagLoop (size * size) (List.replicate (size * size) 0) 0 (size * size) (size + 1)
    rank := size
    rows := (List.range size).map (fun i => basisRow size i)
    columns := (List.range size).map (fun i => basisRow size i) }

/-- Embedding of `clone()`: `return new this.constructor( this.size.rows );`. -/
def IdentityMatrix.clone (m : IdentityMatrix) : IdentityMatrix :=
  IdentityMatrix.construct m.size.rows

/-- Embedding of the getter `transpose`: `return this.clone();`. -/
def IdentityMatrix.transpose (m : IdentityMatrix) : IdentityMatrix :=
  m.clone

/-- Embedding of `entry( r, c )`: `return ( r === c ) ? 1 : 0;`.
Note the source performs no bounds check of any kind. -/
def IdentityMatrix.entry (_m : IdentityMatrix) (r c : ℕ) : ℚ :=
  if r = c then 1 else 0

/-- Embedding of `row( r )`:
`let row = new Array( size ).fill( 0 ); row[ r - 1 ] = 1; return row;`. -/
def IdentityMatrix.row (m : IdentityMatrix) (r : ℕ) : List ℚ :=
  (List.replicate m.size.rows (0 : ℚ)).set (r - 1) 1

/-- Embedding of `column( c )`: `return this.row( c );`. -/
def IdentityMatrix.column (m : IdentityMatrix) (c : ℕ) : List ℚ :=
  m.row c

/-- Embedding of `mainDiagonal()`: `return new Array( this.size.rows ).fill( 1 );`. -/
def IdentityMatrix.mainDiagonal (m : IdentityMatrix) : List ℚ :=
  List.replicate m.size.rows (1 : ℚ)

/-- Embedding of `leadingCoefficient( r )`: `return 1;`. -/
def IdentityMatrix.leadingCoefficient (_m : IdentityMatrix) (_r : ℕ) : ℚ :=
  1

/-- One iteration of the `forEach` loop body: records the callback arguments
`( entry, r, c, index )` and advances the `(r, c)` cursor exactly as

`let entry = ( r === c ) ? 1 : 0;
 callback...( entry, r, c, index, matrix ); c ++;
 if ( c > _nCols ) ( c = 1, r ++ );` -/
def forEachStep (nCols : ℕ) (st : List (ℚ × ℕ × ℕ × ℕ) × ℕ × ℕ) (index : ℕ) :
    List (ℚ × ℕ × ℕ × ℕ) × ℕ × ℕ :=
  let r := st.2.1
  let c := st.2.2
  let e : ℚ := if r = c then 1 else 0
  let calls := st.1 ++ [(e, r, c, index)]
  if c + 1 > nCols then (calls, r + 1, 1) else (calls, r, c + 1)

/-- Embedding of `forEach( callback, thisArg )`: the sequence of argument
tuples `( entry, r, c, index )` passed to the callback. The loop runs
`index` from `0` to `_n - 1` where `_n = _nCols * _nCols`, starting from
`r = 1, c = 1`. -/
def IdentityMatrix.forEachCalls (m : IdentityMatrix) : List (ℚ × ℕ × ℕ × ℕ) :=
  ((List.range (m.size.columns * m.size.columns)).foldl
    (forEachStep m.size.columns) ([], 1, 1)).1

/-- Embedding of `forEachRow( callback, thisArg )`: the sequence of argument
pairs `( row, r )` passed to the callback, for `i = 0 .. _nRows - 1` with
`r = i + 1` and `row` the `i`-th basis row. -/
def IdentityMatrix.forEachRowCalls (m : IdentityMatrix) : List (List ℚ × ℕ) :=
  (List.range m.size.rows).foldl
    (fun calls i => calls ++ [(basisRow m.size.rows i, i + 1)]) []

/-- Embedding of `forEachColumn( callback, thisArg )`:
`this.forEachRow( callback, thisArg );`. -/
def IdentityMatrix.forEachColumnCalls (m : IdentityMatrix) : List (List ℚ × ℕ) :=
  m.forEachRowCalls

/-- Direct element assignment `m.elements[ i ] = v` on an instance, which
plain JavaScript permits on any non-frozen array (the class does not freeze
`elements` and installs no setter): it always succeeds, in place. -/
def assignElement (m : IdentityMatrix) (i : ℕ) (v : ℚ) : IdentityMatrix :=
  { m with elements := m.elements.set i v }

/-- The method table of the `IdentityMatrix` class, read off the class body
of `src/matrices/IdentityMatrix.js` (the getter `transpose` included): the
complete list of member names the class defines. -/
def identityMatrixMethods : List String :=
  ["constructor", "transpose", "clone", "entry", "row", "column",
   "mainDiagonal", "leadingCoefficient", "forEach", "forEachRow",
   "forEachColumn"]

/-! ### Helper lemmas -/

/-- The `linearCombination` fold, characterised for a prefix of the index
range: while `q` is long enough every term is a real number and the fold
accumulates the dot product; as soon as the index range outruns `q`, the
accumulator is `NaN` (`none`) and stays so. -/
theorem lc_loop (p q : List ℚ) (n : ℕ) (hn : n ≤ p.length) :
    (List.range n).foldl
      (fun result i => jsAdd result (jsMul (p.get? i) (q.get? i))) (some 0)
    = if n ≤ q.length then
        some (∑ i in Finset.range n, p.getD i 0 * q.getD i 0)
      else none := by
  induction n with
  | zero => simp
  | succ k ih =>
    have hk : k ≤ p.length := Nat.le_of_succ_le hn
    rw [List.range_succ, List.foldl_append, ih hk]
    by_cases hq : k + 1 ≤ q.length
    · have hkq : k ≤ q.length := Nat.le_of_succ_le hq
      have hkp : k < p.length := hn
      have hkq' : k < q.length := hq
      have hp : p.get? k = some (p.getD k 0) := by
        rw [List.getD_eq_get? ]
        cases hpk : p.get? k with
        | none => exact absurd (List.get?_eq_none.mp hpk) (Nat.not_le.mpr hkp)
        | some x => rfl
      have hq2 : q.get? k = some (q.getD k 0) := by
        rw [List.getD_eq_get? ]
        cases hqk : q.get? k with
        | none => exact absurd (List.get?_eq_none.mp hqk) (Nat.not_le.mpr hkq')
        | some x => rfl
      simp only [List.foldl_cons, List.foldl_nil, if_pos hkq, if_pos hq, hp, hq2,
        jsMul, jsAdd, Finset.sum_range_succ]
    · have hql : q.length < k + 1 := Nat.not_le.mp hq
      by_cases hkq : k ≤ q.length
      · have hqk : q.get? k = none := List.get?_eq_none.mpr (by omega)
        simp only [List.foldl_cons, List.foldl_nil, if_pos hkq, if_neg hq, hqk]
        cases p.get? k <;> rfl
      · simp only [List.foldl_cons, List.foldl_nil, if_neg hkq, if_neg hq]
        rfl

/-- `linearCombination` in closed form: the dot product over `p`'s index
range when `q` is at least as long as `p`, `NaN` otherwise. -/
theorem linearCombination_eq (p q : List ℚ) :
    linearCombination p q
    = if p.length ≤ q.length then
        some (∑ i in Finset.range p.length, p.getD i 0 * q.getD i 0)
      else none := by
  unfold linearCombination
  exact lc_loop p q p.length le_rfl

/-! ### Claims about `linearCombination` -/

/-- C4: for every pair of equal-length numeric sequences `p` and `q`,
`linearCombination(p, q)` returns the sum over `i` of `p[i] * q[i]`
(the dot product). -/
theorem linearCombination_dot (p q : List ℚ) (h : p.length = q.length) :
    linearCombination p q
    = some (∑ i in Finset.range p.length, p.getD i 0 * q.getD i 0) := by
  rw [linearCombination_eq, if_pos (le_of_eq h)]

/-- C4 witness: `linearCombination([1,2,3], [4,5,6])` returns `32`. -/
theorem linearCombination_dot_witness :
    linearCombination [(1 : ℚ), 2, 3] [4, 5, 6] = some 32 := by
  have h := linearCombination_dot [(1 : ℚ), 2, 3] [4, 5, 6] rfl
  rw [h]
  norm_num [Finset.sum_range_succ]

/-- C1 counterexample: `p = [1]` and `q = [2, 3]` have different lengths,
yet `linearCombination(p, q)` does not fail — it returns the number `2`.
The source body has no length comparison and no throw at all, so the
claimed `DimensionMismatch` failure cannot occur. -/
theorem linearCombination_mismatch_returns_number :
    List.length [(1 : ℚ)] ≠ List.length [(2 : ℚ), 3]
    ∧ linearCombination [(1 : ℚ)] [2, 3] = some 2 := by
  constructor
  · decide
  · rw [linearCombination_eq]
    norm_num [Finset.sum_range_succ]

/-- C1 amended: `linearCombination` performs no length check and never
raises `DimensionMismatch`. When `p` is at most as long as `q` it returns
the dot product over `p`'s index range (a plain number even when the
lengths differ); when `p` is strictly longer it reads `q` out of bounds and
returns `NaN` — which in JavaScript is still a value of type number, not a
thrown error. -/
theorem linearCombination_no_length_check (p q : List ℚ) :
    (p.length ≤ q.length →
      linearCombination p q
      = some (∑ i in Finset.range p.length, p.getD i 0 * q.getD i 0))
    ∧ (q.length < p.length → linearCombination p q = none) := by
  constructor
  · intro h
    rw [linearCombination_eq, if_pos h]
  · intro h
    rw [linearCombination_eq, if_neg (Nat.not_le.mpr h)]

/-- C1 amended witness: both branches at concrete inputs — `[1]` against
`[2, 3]` returns the number `2`; `[1, 2]` against `[3]` returns `NaN`. -/
theorem linearCombination_no_length_check_witness :
    linearCombination [(1 : ℚ)] [2, 3] = some 2
    ∧ linearCombination [(1 : ℚ), 2] [3] = none := by
  constructor
  · have h := (linearCombination_no_length_check [(1 : ℚ)] [2, 3]).1 (by decide)
    rw [h]
    norm_num [Finset.sum_range_succ]
  · exact (linearCombination_no_length_check [(1 : ℚ), 2] [3]).2 (by decide)

/-! ### Claims about `IdentityMatrix` accessors -/

/-- C5: on an `IdentityMatrix` of size `n`, for every 1-indexed in-range
position `(r, c)`, `entry(r, c)` returns `1` if `r = c` and `0` otherwise. -/
theorem identityMatrix_entry_closed_form (n r c : ℕ)
    (hr1 : 1 ≤ r) (hrn : r ≤ n) (hc1 : 1 ≤ c) (hcn : c ≤ n) :
    (IdentityMatrix.construct n).entry r c = if r = c then 1 else 0 := rfl

/-- C5 witness: on `IdentityMatrix(3)`, `entry(2, 2)` returns `1` and
`entry(1, 2)` returns `0`. -/
theorem identityMatrix_entry_closed_form_witness :
    (IdentityMatrix.construct 3).entry 2 2 = 1
    ∧ (IdentityMatrix.construct 3).entry 1 2 = 0 := by
  have h1 := identityMatrix_entry_closed_form 3 2 2 (by decide) (by decide)
    (by decide) (by decide)
  have h2 := identityMatrix_entry_closed_form 3 1 2 (by decide) (by decide)
    (by decide) (by decide)
  rw [h1, h2]
  constructor <;> decide

/-- C2 counterexample: on `IdentityMatrix(3)` the position `(5, 5)` is out
of range (`5 > 3 = rows`), yet `entry(5, 5)` does not fail with
`IndexOutOfRange` — the source method is the bare conditional
`( r === c ) ? 1 : 0` with no bounds check, and it returns the number `1`
here. -/
theorem identityMatrix_entry_out_of_range_returns_number :
    (IdentityMatrix.construct 3).size.rows < 5
    ∧ (IdentityMatrix.construct 3).size.columns < 5
    ∧ (IdentityMatrix.construct 3).entry 5 5 = 1 := by
  refine ⟨by decide, by decide, ?_⟩
  decide

/-- C2 amended: `IdentityMatrix.entry` performs no bounds check at all: for
every size `n` and all arguments `r`, `c` — in range or not — it returns
the number `1` if `r = c` and `0` otherwise, and never fails with
`IndexOutOfRange`. -/
theorem identityMatrix_entry_no_bounds_check (n r c : ℕ) :
    (IdentityMatrix.construct n).entry r c = if r = c then 1 else 0 := rfl

/-- C9: the `rank` of `IdentityMatrix(n)` equals `n` (assigned directly in
the constructor). -/
theorem identityMatrix_rank (n : ℕ) :
    (IdentityMatrix.construct n).rank = n := rfl

/-- C7: the `transpose` of `IdentityMatrix(n)` equals the matrix itself —
same instance state, hence same size and the same entry at every position —
and transposing twice again yields the original. -/
theorem identityMatrix_transpose_self (n : ℕ) :
    (IdentityMatrix.construct n).transpose = IdentityMatrix.construct n
    ∧ (IdentityMatrix.construct n).transpose.transpose = IdentityMatrix.construct n
    ∧ ∀ r c : ℕ, (IdentityMatrix.construct n).transpose.entry r c
        = (IdentityMatrix.construct n).entry r c := by
  refine ⟨rfl, rfl, fun r c => rfl⟩

/-! ### Claims about mutation on `IdentityMatrix` -/

/-- C3 counterexample: on `IdentityMatrix(2)`, the element assignment
`m.elements[1] = 5` does not fail with `Unsupported` — it succeeds and
visibly changes the stored element from `0` to `5`. The class body contains
no mutation guard and no `Unsupported` error of any kind. -/
theorem identityMatrix_mutation_succeeds :
    (IdentityMatrix.construct 2).elements.get? 1 = some 0
    ∧ (assignElement (IdentityMatrix.construct 2) 1 5).elements.get? 1 = some 5 := by
  constructor <;> decide

/-- C3 amended: `IdentityMatrix` simply defines no row-operation methods —
`swapRows`, `scaleRow` and `addRowMultiple` are absent from the class's
member table, so invoking one is a JavaScript `TypeError` (`... is not a
function`), not a failure with an `Unsupported` error kind — and direct
element assignment on the `elements` array is not intercepted at all: it
succeeds and stores the assigned value. -/
theorem identityMatrix_no_unsupported_guard :
    ("swapRows" ∉ identityMatrixMethods
      ∧ "scaleRow" ∉ identityMatrixMethods
      ∧ "addRowMultiple" ∉ identityMatrixMethods)
    ∧ ∀ (m : IdentityMatrix) (i : ℕ) (v : ℚ), i < m.elements.length →
        (assignElement m i v).elements.get? i = some v := by
  refine ⟨⟨by decide, by decide, by decide⟩, ?_⟩
  intro m i v hi
  show (m.elements.set i v).get? i = some v
  rw [List.get?_set_of_lt' v m.elements hi, if_pos rfl]

/-- C3 amended witness: `swapRows` is not a member of the class, and on
`IdentityMatrix(2)` assigning `5` to `elements[1]` stores `5`. -/
theorem identityMatrix_no_unsupported_guard_witness :
    "swapRows" ∉ identityMatrixMethods
    ∧ (assignElement (IdentityMatrix.construct 2) 1 5).elements.get? 1 = some 5 :=
  ⟨identityMatrix_no_unsupported_guard.1.1,
   identityMatrix_no_unsupported_guard.2 (IdentityMatrix.construct 2) 1 5 (by decide)⟩

/-! ### Claims relating columns to rows -/

/-- C10: on `IdentityMatrix(n)`, for every in-range index `c`, `column(c)`
returns element-for-element the same array as `row(c)` — the `c`-th
standard basis vector, built as a length-`n` zero array with a `1` written
at offset `c - 1` — and `forEachColumn` passes its callback exactly the
argument sequence of `forEachRow`, consistent with the symmetry of the
identity matrix. -/
theorem identityMatrix_column_eq_row (n c : ℕ) (hc1 : 1 ≤ c) (hcn : c ≤ n) :
    (IdentityMatrix.construct n).column c = (IdentityMatrix.construct n).row c
    ∧ (IdentityMatrix.construct n).row c = basisRow n (c - 1)
    ∧ (IdentityMatrix.construct n).forEachColumnCalls
        = (IdentityMatrix.construct n).forEachRowCalls :=
  ⟨rfl, rfl, rfl⟩

/-- C10 witness: on `IdentityMatrix(3)` with `c = 2`, `column(2)` equals
`row(2)` and the two iterators pass identical argument sequences. -/
theorem identityMatrix_column_eq_row_witness :
    (IdentityMatrix.construct 3).column 2 = (IdentityMatrix.construct 3).row 2
    ∧ (IdentityMatrix.construct 3).forEachColumnCalls
        = (IdentityMatrix.construct 3).forEachRowCalls :=
  ⟨(identityMatrix_column_eq_row 3 2 (by decide) (by decide)).1,
   (identityMatrix_column_eq_row 3 2 (by decide) (by decide)).2.2⟩

/-! ### The `forEach` traversal in closed form -/

/-- Folding an append-one-element step over any index list is just `map`. -/
theorem foldl_append_singleton_eq_map {α β : Type} (g : β → α) :
    ∀ (l : List β) (acc : List α),
      l.foldl (fun a i => a ++ [g i]) acc = acc ++ l.map g := by
  intro l
  induction l with
  | nil => intro acc; simp
  | cons x xs ih => intro acc; simp [ih]

/-- Arithmetic of the `(r, c)` cursor, wrap case: if the column counter is
at the last column, the next flat index starts the next row. -/
theorem cursor_wrap (n k : ℕ) (hn : 0 < n) (hc : k % n + 1 + 1 > n) :
    (k + 1) / n = k / n + 1 ∧ (k + 1) % n = 0 := by
  have hlt : k % n < n := Nat.mod_lt k hn
  have hmod : k % n = n - 1 := by omega
  have hdm : n * (k / n) + k % n = k := Nat.div_add_mod k n
  have hk1 : k + 1 = n * (k / n + 1) := by
    rw [Nat.mul_add, Nat.mul_one]
    omega
  constructor
  · rw [hk1, Nat.mul_div_cancel_left _ hn]
  · rw [hk1]
    exact Nat.mul_mod_right n _

/-- Arithmetic of the `(r, c)` cursor, interior case: if the column counter
is not yet at the last column, the next flat index stays in the same row. -/
theorem cursor_stay (n k : ℕ) (hn : 0 < n) (hc : ¬(k % n + 1 + 1 > n)) :
    (k + 1) / n = k / n ∧ (k + 1) % n = k % n + 1 := by
  have hlt : k % n + 1 < n := by omega
  have hdm : n * (k / n) + k % n = k := Nat.div_add_mod k n
  have hk1 : k + 1 = n * (k / n) + (k % n + 1) := by omega
  constructor
  · rw [hk1, Nat.mul_add_div hn, Nat.div_eq_of_lt hlt, Nat.add_zero]
  · rw [hk1, Nat.mul_add_mod, Nat.mod_eq_of_lt hlt]

/-- The `forEach` loop invariant: after `j` iterations the recorded calls
are exactly the row-major tuples for flat indices `0 .. j - 1`, and the
cursor sits at row `j / n + 1`, column `j % n + 1`. -/
theorem forEach_loop (n : ℕ) (hn : 0 < n) (j : ℕ) :
    (List.range j).foldl (forEachStep n) ([], 1, 1)
    = ((List.range j).map
        (fun k => ((if k / n = k % n then (1 : ℚ) else 0), k / n + 1, k % n + 1, k)),
       j / n + 1, j % n + 1) := by
  induction j with
  | zero => simp
  | succ k ih =>
    rw [List.range_succ, List.foldl_append, ih, List.map_append]
    simp only [List.foldl_cons, List.foldl_nil, List.map_cons, List.map_nil]
    unfold forEachStep
    simp only [Nat.add_right_cancel_iff]
    by_cases hc : k % n + 1 + 1 > n
    · obtain ⟨hdiv, hmod⟩ := cursor_wrap n k hn hc
      rw [if_pos hc, hdiv, hmod]
    · obtain ⟨hdiv, hmod⟩ := cursor_stay n k hn hc
      rw [if_neg hc, hdiv, hmod]

/-- C6: on `IdentityMatrix(n)`, `forEach` invokes its callback exactly
`n * n` times, in row-major order: the `k`-th invocation (0-indexed)
receives the entry value (`1` exactly on the diagonal, `0` elsewhere), the
1-indexed row `k / n + 1`, the 1-indexed column `k % n + 1`, and the
0-indexed flat index `k`. `forEachRow` invokes its callback once per row,
for rows `1 .. n` in order, passing that row's entries, and `forEachColumn`
invokes its callback exactly once per column (it delegates to `forEachRow`,
whose invocation sequence it reproduces verbatim). All three are pure
functions of the instance, so repeating a call replays the identical
invocation sequence — no state is retained between calls. -/
theorem identityMatrix_iteration (n : ℕ) :
    (IdentityMatrix.construct n).forEachCalls
      = (List.range (n * n)).map
          (fun k => ((if k / n = k % n then (1 : ℚ) else 0), k / n + 1, k % n + 1, k))
    ∧ ((IdentityMatrix.construct n).forEachCalls).length = n * n
    ∧ (IdentityMatrix.construct n).forEachRowCalls
        = (List.range n).map (fun i => (basisRow n i, i + 1))
    ∧ ((IdentityMatrix.construct n).forEachRowCalls).length = n
    ∧ (IdentityMatrix.construct n).forEachColumnCalls
        = (IdentityMatrix.construct n).forEachRowCalls := by
  have hrow : (IdentityMatrix.construct n).forEachRowCalls
      = (List.range n).map (fun i => (basisRow n i, i + 1)) := by
    show (List.range n).foldl (fun calls i => calls ++ [(basisRow n i, i + 1)]) [] = _
    rw [foldl_append_singleton_eq_map]
    simp
  have hforEach : (IdentityMatrix.construct n).forEachCalls
      = (List.range (n * n)).map
          (fun k => ((if k / n = k % n then (1 : ℚ) else 0), k / n + 1, k % n + 1, k)) := by
    rcases Nat.eq_zero_or_pos n with hn | hn
    · subst hn; rfl
    · show ((List.range (n * n)).foldl (forEachStep n) ([], 1, 1)).1 = _
      rw [forEach_loop n hn (n * n)]
  refine ⟨hforEach, ?_, hrow, ?_, rfl⟩
  · rw [hforEach]; simp
  · rw [hrow]; simp

/-! ### The backing `elements` array in closed form -/

/-- The diagonal-filling loop never changes the array's length. -/
theorem diagLoop_length (f : ℕ) :
    ∀ (els : List ℚ) (index stop step : ℕ),
      (diagLoop f els index stop step).length = els.length := by
  induction f with
  | zero => intro els index stop step; rfl
  | succ g ih =>
    intro els index stop step
    unfold diagLoop
    split
    · rw [ih, List.length_set]
    · rfl

/-- Reading the array written by the diagonal-filling loop: position `k`
holds `1` when the loop visits `k` — that is, when `k` lies in
`[index, stop)` at distance a multiple of `step` from the start — and is
untouched otherwise. Requires enough fuel and an in-bounds stop. -/
theorem diagLoop_get? (f : ℕ) :
    ∀ (els : List ℚ) (index stop step k : ℕ), 0 < step →
      stop ≤ index + f * step → stop ≤ els.length →
      (diagLoop f els index stop step).get? k
      = if index ≤ k ∧ k < stop ∧ step ∣ (k - index) then some 1 else els.get? k := by
  induction f with
  | zero =>
    intro els index stop step k hstep hfuel hlen
    have hcond : ¬(index ≤ k ∧ k < stop ∧ step ∣ (k - index)) := by
      simp only [Nat.zero_mul, Nat.add_zero] at hfuel
      rintro ⟨h1, h2, -⟩
      omega
    rw [if_neg hcond]
    rfl
  | succ g ih =>
    intro els index stop step k hstep hfuel hlen
    unfold diagLoop
    split
    · rename_i hlt
      have hfuel' : stop ≤ (index + step) + g * step := by
        rw [Nat.succ_mul] at hfuel
        omega
      have hlen' : stop ≤ (els.set index 1).length := by
        rw [List.length_set]
        exact hlen
      rw [ih (els.set index 1) (index + step) stop step k hstep hfuel' hlen']
      by_cases hnew : index + step ≤ k ∧ k < stop ∧ step ∣ (k - (index + step))
      · have hold : index ≤ k ∧ k < stop ∧ step ∣ (k - index) := by
          refine ⟨by omega, hnew.2.1, ?_⟩
          have hk : k - index = (k - (index + step)) + step := by omega
          rw [hk]
          exact Nat.dvd_add hnew.2.2 dvd_rfl
        rw [if_pos hnew, if_pos hold]
      · rw [if_neg hnew]
        by_cases hk : k = index
        · subst hk
          have hold : k ≤ k ∧ k < stop ∧ step ∣ (k - k) := by
            refine ⟨le_rfl, hlt, ?_⟩
            rw [Nat.sub_self]
            exact Dvd.intro 0 rfl
          rw [if_pos hold,
            List.get?_set_of_lt' 1 els (lt_of_lt_of_le hlt hlen), if_pos rfl]
        · have hold : ¬(index ≤ k ∧ k < stop ∧ step ∣ (k - index)) := by
            rintro ⟨h1, h2, h3⟩
            have hpos : 0 < k - index := by omega
            have hge : step ≤ k - index := Nat.le_of_dvd hpos h3
            have hsub : step ∣ (k - (index + step)) := by
              have hk2 : k - (index + step) = (k - index) - step := by omega
              rw [hk2]
              exact Nat.dvd_sub' h3 dvd_rfl
            exact hnew ⟨by omega, h2, hsub⟩
          rw [if_neg hold,
            List.get?_set_of_lt' 1 els (lt_of_lt_of_le hlt hlen),
            if_neg (fun hcontra => hk hcontra.symm)]
    · rename_i hge
      have hcond : ¬(index ≤ k ∧ k < stop ∧ step ∣ (k - index)) := by
        rintro ⟨h1, h2, -⟩
        omega
      rw [if_neg hcond]

/-- The `elements` array of `IdentityMatrix(n)` at flat index `k < n * n`:
`1` at the multiples of `n + 1` written by the constructor loop, the
initial `0` everywhere else. -/
theorem construct_elements_get? (n k : ℕ) (hk : k < n * n) :
    (IdentityMatrix.construct n).elements.get? k
    = if (n + 1) ∣ k then some 1 else some 0 := by
  show (diagLoop (n * n) (List.replicate (n * n) 0) 0 (n * n) (n + 1)).get? k = _
  rw [diagLoop_get? (n * n) (List.replicate (n * n) 0) 0 (n * n) (n + 1) k
    (Nat.succ_pos n)
    (by simpa using Nat.le_mul_of_pos_right (n * n) (Nat.succ_pos n))
    (by rw [List.length_replicate])]
  have hrep : (List.replicate (n * n) (0 : ℚ)).get? k = some 0 := by
    simp [List.get?_eq_getElem?, List.getElem?_replicate, hk]
  by_cases hdvd : (n + 1) ∣ k
  · rw [if_pos ⟨Nat.zero_le k, hk, by simpa using hdvd⟩, if_pos hdvd]
  · rw [if_neg (by rintro ⟨-, -, h⟩; exact hdvd (by simpa using h)), if_neg hdvd,
      hrep]

/-- A flat row-major offset `(r - 1) * n + (c - 1)` with both coordinates
in `[1, n]` is a multiple of `n + 1` exactly on the main diagonal. -/
theorem diag_offset_dvd (n r c : ℕ)
    (hr1 : 1 ≤ r) (hrn : r ≤ n) (hc1 : 1 ≤ c) (hcn : c ≤ n) :
    (n + 1) ∣ ((r - 1) * n + (c - 1)) ↔ r = c := by
  obtain ⟨a, rfl⟩ : ∃ a, r = a + 1 := ⟨r - 1, by omega⟩
  obtain ⟨b, rfl⟩ : ∃ b, c = b + 1 := ⟨c - 1, by omega⟩
  have ha : a < n := by omega
  have hb : b < n := by omega
  simp only [Nat.add_sub_cancel, Nat.add_right_cancel_iff]
  constructor
  · intro h
    rcases le_or_lt a b with hab | hba
    · have he : a * n + b = a * (n + 1) + (b - a) := by
        rw [Nat.mul_add, Nat.mul_one]
        omega
      rw [he] at h
      have h2 : (n + 1) ∣ (b - a) :=
        (Nat.dvd_add_right (dvd_mul_left (n + 1) a)).mp h
      have h3 : b - a = 0 := Nat.eq_zero_of_dvd_of_lt h2 (by omega)
      omega
    · have hmul : b * n ≤ a * n := Nat.mul_le_mul_right n (le_of_lt hba)
      have he : a * n + b = b * (n + 1) + (a - b) * n := by
        rw [Nat.mul_add, Nat.mul_one, Nat.sub_mul]
        omega
      rw [he] at h
      have h2 : (n + 1) ∣ (a - b) * n :=
        (Nat.dvd_add_right (dvd_mul_left (n + 1) b)).mp h
      have hcop : Nat.Coprime (n + 1) n := by
        unfold Nat.Coprime
        rw [Nat.add_comm, Nat.gcd_add_self_left]
        exact Nat.gcd_one_left n
      have h3 : (n + 1) ∣ (a - b) := hcop.dvd_of_dvd_mul_right h2
      have h4 : a - b = 0 := Nat.eq_zero_of_dvd_of_lt h3 (by omega)
      omega
  · rintro rfl
    exact ⟨a, by ring⟩

/-- C8: after constructing `IdentityMatrix(n)`, the backing storage
invariant holds: `elements.length = rows * columns = n * n`; the element at
flat row-major offset `(r - 1) * n + (c - 1)` equals `entry(r, c)` for
every in-range `r`, `c`; and every row stored in the `rows` property has
length exactly `n`. -/
theorem identityMatrix_storage_invariant (n r c : ℕ)
    (hr1 : 1 ≤ r) (hrn : r ≤ n) (hc1 : 1 ≤ c) (hcn : c ≤ n) :
    (IdentityMatrix.construct n).elements.length = n * n
    ∧ (IdentityMatrix.construct n).size.rows * (IdentityMatrix.construct n).size.columns
        = n * n
    ∧ (IdentityMatrix.construct n).elements.get? ((r - 1) * n + (c - 1))
        = some ((IdentityMatrix.construct n).entry r c)
    ∧ ∀ row ∈ (IdentityMatrix.construct n).rows, row.length = n := by
  refine ⟨?_, rfl, ?_, ?_⟩
  · show (diagLoop (n * n) (List.replicate (n * n) 0) 0 (n * n) (n + 1)).length = n * n
    rw [diagLoop_length, List.length_replicate]
  · have hmul : (r - 1) * n ≤ (n - 1) * n := Nat.mul_le_mul_right n (by omega)
    have hnn : (n - 1) * n = n * n - n := by rw [Nat.sub_mul, Nat.one_mul]
    have hle : n ≤ n * n := by simpa using Nat.le_mul_of_pos_right n (by omega)
    have hk : (r - 1) * n + (c - 1) < n * n := by omega
    rw [construct_elements_get? n _ hk]
    show _ = some (if r = c then 1 else 0)
    by_cases hrc : r = c
    · rw [if_pos ((diag_offset_dvd n r c hr1 hrn hc1 hcn).mpr hrc), if_pos hrc]
    · rw [if_neg (fun h => hrc ((diag_offset_dvd n r c hr1 hrn hc1 hcn).mp h)),
        if_neg hrc]
  · intro row hrow
    have : row ∈ (List.range n).map (fun i => basisRow n i) := hrow
    obtain ⟨i, -, rfl⟩ := List.mem_map.mp this
    show ((List.replicate n (0 : ℚ)).set i 1).length = n
    rw [List.length_set, List.length_replicate]

/-- C8 witness: the storage invariant instantiated on `IdentityMatrix(2)`
at position `(1, 2)`. -/
theorem identityMatrix_storage_invariant_witness :
    (IdentityMatrix.construct 2).elements.length = 2 * 2
    ∧ (IdentityMatrix.construct 2).elements.get? ((1 - 1) * 2 + (2 - 1))
        = some ((IdentityMatrix.construct 2).entry 1 2) :=
  ⟨(identityMatrix_storage_invariant 2 1 2 (by decide) (by decide) (by decide)
      (by decide)).1,
   (identityMatrix_storage_invariant 2 1 2 (by decide) (by decide) (by decide)
      (by decide)).2.2.1⟩
